import Mathlib

/-!
# Verification of the valijson RapidJson adapter
  (src/include/valijson/adapters/rapidjson_adapter.hpp)

A shallow embedding of the adapter layer over a model of `rapidjson::Value`
(the bundled backend, thirdparty/rapidjson-0.1 per CMakeLists.txt).

Modelling decisions, justified against the backend's documented behaviour:

* A `rapidjson::Value` is one of the seven JSON kinds.  Numbers carry subtype
  flags (Int / Uint / Int64 / Uint64 / Double).  Every rapidjson setter
  (`SetInt`, `SetUint`, `SetInt64`, `SetUint64`) stores the mathematical value
  and sets exactly the subtype flags for the integer ranges the value fits in,
  so for integer-valued numbers the flags are a pure function of the stored
  value; a number built by `SetDouble` carries only the Double flag.  Hence the
  model stores an integral number as its mathematical value (`rjIntegral`) and
  derives the `Is*` flag tests as range checks, and stores a double-typed
  number as `rjDouble`.  Doubles are modelled as rationals: every claim below
  uses doubles only through exact equality and copying, never arithmetic, so
  no rounding behaviour is involved.
* `rjUnknown` stands for a node whose `GetType()` is outside the seven kinds
  the backend contract defines: it is the case the `default:` branch of
  `RapidJsonFrozenValue::copy` handles.  Values actually producible by
  rapidjson never contain it; the predicate `wellFormed` carves those out.
* C++ output-reference parameters are modelled by state passing: a getter
  taking `T &result` becomes a function `RJValue → T → Bool × T` returning
  the success flag and the final value of `result`.
* Iterators (`ConstValueIterator` / `ConstMemberIterator` wrappers) are
  pointers into a container's contiguous storage; they are modelled as the
  container's element list plus an offset, and the source's pointer-equality
  `equal` becomes equality of that pair.
* The constructors that `throw` are modelled as `Except AdapterError`
  functions, with the error names of the spec's taxonomy.
-/

namespace Valijson

/-- Error taxonomy of the spec (§7): the adapter's `throw std::runtime_error`
sites are classified as TypeMismatch (view construction from a value of the
wrong kind) and UnsupportedValue (frozen-value copy of an unknown node kind). -/
inductive AdapterError where
  | typeMismatch
  | unsupportedValue
deriving DecidableEq

/-- Model of `rapidjson::Value`.  `rjIntegral` is a number stored through one
of the integer setters (its subtype flags are derived by the `Is*` range
tests below); `rjDouble` is a number stored through `SetDouble`.  `rjUnknown`
models a node of a kind outside the backend contract (the `default:` case of
`RapidJsonFrozenValue::copy`). -/
inductive RJValue where
  | rjNull
  | rjFalse
  | rjTrue
  | rjIntegral (n : Int)
  | rjDouble (d : Rat)
  | rjString (s : String)
  | rjArray (elems : List RJValue)
  | rjObject (members : List (String × RJValue))
  | rjUnknown
deriving Inhabited

namespace RJValue

/-- `rapidjson::Value::IsNull`. -/
def IsNull : RJValue → Bool
  | rjNull => true
  | _ => false

/-- `rapidjson::Value::IsBool`. -/
def IsBool : RJValue → Bool
  | rjFalse => true
  | rjTrue => true
  | _ => false

/-- `rapidjson::Value::IsString`. -/
def IsString : RJValue → Bool
  | rjString _ => true
  | _ => false

/-- `rapidjson::Value::IsArray`. -/
def IsArray : RJValue → Bool
  | rjArray _ => true
  | _ => false

/-- `rapidjson::Value::IsObject`. -/
def IsObject : RJValue → Bool
  | rjObject _ => true
  | _ => false

/-- `rapidjson::Value::IsNumber`: any node with the Number flag. -/
def IsNumber : RJValue → Bool
  | rjIntegral _ => true
  | rjDouble _ => true
  | _ => false

/-- `rapidjson::Value::IsInt`: the Int flag, set exactly when an
integer-valued number fits in `int32_t`. -/
def IsInt : RJValue → Bool
  | rjIntegral n => decide (-(2 ^ 31) ≤ n ∧ n < 2 ^ 31)
  | _ => false

/-- `rapidjson::Value::IsUint`: the Uint flag, set exactly when an
integer-valued number fits in `uint32_t`. -/
def IsUint : RJValue → Bool
  | rjIntegral n => decide (0 ≤ n ∧ n < 2 ^ 32)
  | _ => false

/-- `rapidjson::Value::IsInt64`: the Int64 flag, set exactly when an
integer-valued number fits in `int64_t`. -/
def IsInt64 : RJValue → Bool
  | rjIntegral n => decide (-(2 ^ 63) ≤ n ∧ n < 2 ^ 63)
  | _ => false

/-- `rapidjson::Value::IsUint64`: the Uint64 flag, set exactly when an
integer-valued number fits in `uint64_t`. -/
def IsUint64 : RJValue → Bool
  | rjIntegral n => decide (0 ≤ n ∧ n < 2 ^ 64)
  | _ => false

/-- `rapidjson::Value::IsDouble`: the Double flag, carried only by numbers
stored through `SetDouble`. -/
def IsDouble : RJValue → Bool
  | rjDouble _ => true
  | _ => false

/-- `rapidjson::Value::GetBool` (meaningful only when `IsBool`). -/
def GetBool : RJValue → Bool
  | rjTrue => true
  | _ => false

/-- The stored integer of a number (shared reading of `GetInt`, `GetUint`,
`GetInt64`, `GetUint64`, which all return the same mathematical value on the
branches the adapter takes them in). -/
def GetIntegral : RJValue → Int
  | rjIntegral n => n
  | _ => 0

/-- `rapidjson::Value::GetDouble` (meaningful only on numbers; converts a
stored integer to double — exact here because doubles are modelled as
rationals). -/
def GetDouble : RJValue → Rat
  | rjDouble d => d
  | rjIntegral n => (n : Rat)
  | _ => 0

/-- `rapidjson::Value::GetString` paired with `GetStringLength` (meaningful
only when `IsString`). -/
def GetString : RJValue → String
  | rjString s => s
  | _ => ""

/-- `static_cast<int64_t>` applied to a `uint64_t` value
(two's-complement wrap-around for values at or above `2^63`). -/
def int64OfUint64 (u : Int) : Int :=
  if u < 2 ^ 63 then u else u - 2 ^ 64

/-- A value producible by the actual rapidjson backend: no `rjUnknown` node
anywhere, and every integral number within the union of the setter ranges
(`int64_t` ∪ `uint64_t`). -/
def wellFormed : RJValue → Bool
  | rjNull => true
  | rjFalse => true
  | rjTrue => true
  | rjIntegral n => decide (-(2 ^ 63) ≤ n ∧ n < 2 ^ 64)
  | rjDouble _ => true
  | rjString _ => true
  | rjArray elems => elems.attach.all (fun e => wellFormed e.val)
  | rjObject members => members.attach.all (fun m => wellFormed m.val.snd)
  | rjUnknown => false
decreasing_by
  · exact Nat.lt_trans (List.sizeOf_lt_of_mem e.property) (by simp)
  · calc sizeOf m.val.snd < sizeOf m.val := by cases m.val; simp
      _ < sizeOf members := List.sizeOf_lt_of_mem m.property
      _ < sizeOf (rjObject members) := by simp

end RJValue

open RJValue

/-! ## RapidJsonValue: the Value capability layer

`RapidJsonValue` holds a reference to a `rapidjson::Value`; its member
functions are modelled as functions on `RJValue`.  Each getter
`bool getX(T &result)` appears twice: `getX` returns `Option T` (success and
the produced value), and `getXRef` passes the `result` reference explicitly
to capture the frame effect (whether `result` is written on failure). -/

namespace RapidJsonValue

/-- `RapidJsonValue::RapidJsonValue()`: wraps the empty-object singleton
(`emptyObject()`). -/
def emptyObject : RJValue := .rjObject []

/-- The value wrapped by a default-constructed `RapidJsonValue`. -/
def defaultValue : RJValue := emptyObject

/-- `RapidJsonValue::getBool`. -/
def getBool (value : RJValue) : Option Bool :=
  if value.IsBool then some value.GetBool else none

/-- `RapidJsonValue::getBool` with the output reference passed explicitly:
returns (return value, final value of `result`). -/
def getBoolRef (value : RJValue) (result : Bool) : Bool × Bool :=
  if value.IsBool then (true, value.GetBool) else (false, result)

/-- `RapidJsonValue::getDouble`. -/
def getDouble (value : RJValue) : Option Rat :=
  if value.IsDouble then some value.GetDouble else none

/-- `RapidJsonValue::getDouble` with the output reference passed explicitly. -/
def getDoubleRef (value : RJValue) (result : Rat) : Bool × Rat :=
  if value.IsDouble then (true, value.GetDouble) else (false, result)

/-- `RapidJsonValue::getInteger`: the IsInt / IsInt64 / IsUint / IsUint64
branch chain of the source, including the `static_cast<int64_t>` on the
unsigned branches. -/
def getInteger (value : RJValue) : Option Int :=
  if value.IsInt then some value.GetIntegral
  else if value.IsInt64 then some value.GetIntegral
  else if value.IsUint then some value.GetIntegral
  else if value.IsUint64 then some (int64OfUint64 value.GetIntegral)
  else none

/-- `RapidJsonValue::getInteger` with the output reference passed
explicitly. -/
def getIntegerRef (value : RJValue) (result : Int) : Bool × Int :=
  if value.IsInt then (true, value.GetIntegral)
  else if value.IsInt64 then (true, value.GetIntegral)
  else if value.IsUint then (true, value.GetIntegral)
  else if value.IsUint64 then (true, int64OfUint64 value.GetIntegral)
  else (false, result)

/-- `RapidJsonValue::getString`. -/
def getString (value : RJValue) : Option String :=
  if value.IsString then some value.GetString else none

/-- `RapidJsonValue::getString` with the output reference passed
explicitly. -/
def getStringRef (value : RJValue) (result : String) : Bool × String :=
  if value.IsString then (true, value.GetString) else (false, result)

/-- `RapidJsonValue::getArraySize`. -/
def getArraySize (value : RJValue) : Option Nat :=
  match value with
  | .rjArray elems => some elems.length
  | _ => none

/-- `RapidJsonValue::getObjectSize` (`MemberEnd() - MemberBegin()`). -/
def getObjectSize (value : RJValue) : Option Nat :=
  match value with
  | .rjObject members => some members.length
  | _ => none

/-- `RapidJsonValue::hasStrictTypes`: this backend distinguishes integer
from floating-point representational kinds. -/
def hasStrictTypes : Bool := true

/-- `RapidJsonValue::isArray`. -/
def isArray (value : RJValue) : Bool := value.IsArray

/-- `RapidJsonValue::isBool`. -/
def isBool (value : RJValue) : Bool := value.IsBool

/-- `RapidJsonValue::isDouble`. -/
def isDouble (value : RJValue) : Bool := value.IsDouble

/-- `RapidJsonValue::isInteger`: the four native integer flags, in source
order. -/
def isInteger (value : RJValue) : Bool :=
  value.IsInt || value.IsInt64 || value.IsUint || value.IsUint64

/-- `RapidJsonValue::isNull`. -/
def isNull (value : RJValue) : Bool := value.IsNull

/-- `RapidJsonValue::isNumber`. -/
def isNumber (value : RJValue) : Bool := value.IsNumber

/-- `RapidJsonValue::isObject`. -/
def isObject (value : RJValue) : Bool := value.IsObject

/-- `RapidJsonValue::isString`. -/
def isString (value : RJValue) : Bool := value.IsString

end RapidJsonValue

/-! ## RapidJsonFrozenValue: the recursive copy -/

namespace RapidJsonFrozenValue

/-- `RapidJsonFrozenValue::copy`: recursive copy of a `rapidjson::Value`.
`none` models `return false` (only the `default:` branch of the switch).
In the object and array cases the source DISCARDS the result of the
recursive `copy` call; a failed child copy leaves the child's freshly
default-constructed destination value untouched, i.e. null, and the parent
copy still succeeds — modelled by `(copy _).getD .rjNull`.
In the number case the IsInt / IsUint / IsInt64 / IsUint64 branches each
re-store the same mathematical value through the matching setter (which
reproduces the same subtype flags), and the final branch stores the double. -/
def copy : RJValue → Option RJValue
  | .rjNull => some .rjNull
  | .rjFalse => some .rjFalse
  | .rjTrue => some .rjTrue
  | .rjObject members =>
      some (.rjObject (members.attach.map
        (fun m => (m.val.fst, (copy m.val.snd).getD .rjNull))))
  | .rjArray elems =>
      some (.rjArray (elems.attach.map
        (fun e => (copy e.val).getD .rjNull)))
  | .rjString s => some (.rjString s)
  | .rjIntegral n =>
      if (RJValue.rjIntegral n).IsInt then some (.rjIntegral n)
      else if (RJValue.rjIntegral n).IsUint then some (.rjIntegral n)
      else if (RJValue.rjIntegral n).IsInt64 then some (.rjIntegral n)
      else if (RJValue.rjIntegral n).IsUint64 then some (.rjIntegral n)
      else some (.rjDouble ((RJValue.rjIntegral n).GetDouble))
  | .rjDouble d => some (.rjDouble d)
  | .rjUnknown => none
decreasing_by
  · calc sizeOf m.val.snd < sizeOf m.val := by cases m.val; simp
      _ < sizeOf members := List.sizeOf_lt_of_mem m.property
      _ < sizeOf (RJValue.rjObject members) := by simp
  · exact Nat.lt_trans (List.sizeOf_lt_of_mem e.property) (by simp)

end RapidJsonFrozenValue

/-- `RapidJsonValue::freeze` / the `RapidJsonFrozenValue` constructor:
`none` models the `throw std::runtime_error("Failed to copy ...")`
(the spec's UnsupportedValue). -/
def freeze (value : RJValue) : Option RJValue :=
  RapidJsonFrozenValue.copy value

/-- `RapidJsonFrozenValue::clone`: re-runs the copy constructor on the
frozen value. -/
def clone (value : RJValue) : Option RJValue :=
  RapidJsonFrozenValue.copy value

/-! ## Container views and their iterators

An iterator wraps a pointer into the container's contiguous storage; it is
modelled as the container's element list together with the offset from the
storage base, and the source's pointer-comparing `equal` function becomes
equality of that pair.  Dereferencing is meaningful only at offsets within
the container (as in the source, where out-of-range dereference is undefined);
out-of-range reads are modelled by a junk default. -/

/-- `RapidJsonArrayValueIterator`: wrapper around
`rapidjson::Value::ConstValueIterator` (a pointer into the array's
storage). -/
structure RapidJsonArrayValueIterator where
  elems : List RJValue
  idx : Nat

namespace RapidJsonArrayValueIterator

/-- `RapidJsonArrayValueIterator::dereference`: the `RapidJsonAdapter` for
`*itr` (identified here with the underlying value). -/
def dereference (it : RapidJsonArrayValueIterator) : RJValue :=
  it.elems.getD it.idx .rjNull

/-- `RapidJsonArrayValueIterator::increment` (`itr++`). -/
def increment (it : RapidJsonArrayValueIterator) : RapidJsonArrayValueIterator :=
  ⟨it.elems, it.idx + 1⟩

/-- `increment` applied `n` times: "begin() advanced size() times". -/
def incrementN (it : RapidJsonArrayValueIterator) : Nat → RapidJsonArrayValueIterator
  | 0 => it
  | n + 1 => incrementN it.increment n

/-- The sequence of elements produced by dereferencing and incrementing from
`it` until the end of the array is reached. -/
def collect (it : RapidJsonArrayValueIterator) : List RJValue :=
  if it.idx < it.elems.length then it.dereference :: it.increment.collect else []
termination_by it.elems.length - it.idx
decreasing_by simp [increment]; omega

end RapidJsonArrayValueIterator

/-- `RapidJsonArray`: a view holding a reference to a rapidjson value already
known to be an array (here, its element list). -/
structure RapidJsonArray where
  elems : List RJValue

namespace RapidJsonArray

/-- `RapidJsonArray::RapidJsonArray()`: references the empty-array
singleton. -/
def defaultArray : RapidJsonArray := ⟨[]⟩

/-- `RapidJsonArray::RapidJsonArray(const rapidjson::Value &)`: throws
(TypeMismatch) unless the value is an array. -/
def ofValue (value : RJValue) : Except AdapterError RapidJsonArray :=
  match value with
  | .rjArray elems => .ok ⟨elems⟩
  | _ => .error .typeMismatch

/-- `RapidJsonArray::begin`: `value.Begin()`. -/
def begin (a : RapidJsonArray) : RapidJsonArrayValueIterator :=
  ⟨a.elems, 0⟩

/-- `RapidJsonArray::end`: `value.End()` (named `endIter`, `end` being a
Lean keyword). -/
def endIter (a : RapidJsonArray) : RapidJsonArrayValueIterator :=
  ⟨a.elems, a.elems.length⟩

/-- `RapidJsonArray::size`: `value.Size()`. -/
def size (a : RapidJsonArray) : Nat := a.elems.length

end RapidJsonArray

/-- `RapidJsonObjectMemberIterator`: wrapper around
`rapidjson::Value::ConstMemberIterator` (a pointer into the object's member
storage). -/
structure RapidJsonObjectMemberIterator where
  members : List (String × RJValue)
  idx : Nat

namespace RapidJsonObjectMemberIterator

/-- `RapidJsonObjectMemberIterator::dereference`: the
`RapidJsonObjectMember` pair (owned name, value) at the iterator. -/
def dereference (it : RapidJsonObjectMemberIterator) : String × RJValue :=
  it.members.getD it.idx ("", .rjNull)

/-- `RapidJsonObjectMemberIterator::increment` (`itr++`). -/
def increment (it : RapidJsonObjectMemberIterator) : RapidJsonObjectMemberIterator :=
  ⟨it.members, it.idx + 1⟩

/-- `increment` applied `n` times. -/
def incrementN (it : RapidJsonObjectMemberIterator) : Nat → RapidJsonObjectMemberIterator
  | 0 => it
  | n + 1 => incrementN it.increment n

/-- The sequence of members produced by dereferencing and incrementing from
`it` until the end of the object is reached. -/
def collect (it : RapidJsonObjectMemberIterator) : List (String × RJValue) :=
  if it.idx < it.members.length then it.dereference :: it.increment.collect else []
termination_by it.members.length - it.idx
decreasing_by simp [increment]; omega

end RapidJsonObjectMemberIterator

/-- Model of rapidjson-0.1's `rapidjson::Value::FindMember`: linear scan for
the first member whose name compares equal; a null pointer — modelled as
`none` — when no member matches. -/
def findMemberIdx (members : List (String × RJValue)) (property : String) : Option Nat :=
  match members with
  | [] => none
  | (n, _) :: rest =>
      if n == property then some 0
      else (findMemberIdx rest property).map (· + 1)

/-- `RapidJsonObject`: a view holding a reference to a rapidjson value
already known to be an object (here, its member list). -/
structure RapidJsonObject where
  members : List (String × RJValue)

namespace RapidJsonObject

/-- `RapidJsonObject::RapidJsonObject()`: references the empty-object
singleton. -/
def defaultObject : RapidJsonObject := ⟨[]⟩

/-- `RapidJsonObject::RapidJsonObject(const rapidjson::Value &)`: throws
(TypeMismatch) unless the value is an object. -/
def ofValue (value : RJValue) : Except AdapterError RapidJsonObject :=
  match value with
  | .rjObject members => .ok ⟨members⟩
  | _ => .error .typeMismatch

/-- `RapidJsonObject::begin`: `value.MemberBegin()`. -/
def begin (o : RapidJsonObject) : RapidJsonObjectMemberIterator :=
  ⟨o.members, 0⟩

/-- `RapidJsonObject::end`: `value.MemberEnd()` (named `endIter`, `end`
being a Lean keyword). -/
def endIter (o : RapidJsonObject) : RapidJsonObjectMemberIterator :=
  ⟨o.members, o.members.length⟩

/-- `RapidJsonObject::size`: `value.MemberEnd() - value.MemberBegin()`. -/
def size (o : RapidJsonObject) : Nat := o.members.length

/-- `RapidJsonObject::find`.  With the bundled rapidjson-0.1, `FindMember`
returns a null pointer when the member is absent; the probe in the source
(`empty.FindMember("")` compared against `empty.MemberBegin() + 1`) detects
that convention and maps the null "not found" sentinel to
`value.MemberEnd()`, so the sentinel never escapes: the function returns
either an iterator positioned at the found member or this object's own
end iterator. -/
def find (o : RapidJsonObject) (propertyName : String) : RapidJsonObjectMemberIterator :=
  match findMemberIdx o.members propertyName with
  | some i => ⟨o.members, i⟩
  | none => o.endIter

end RapidJsonObject

/-! ## equalTo (the generic adapter's structural comparison)

`RapidJsonFrozenValue::equalTo` (line 742) forwards to
`RapidJsonAdapter(value).equalTo(other, strict)`, which lives in
`valijson/adapters/basic_adapter.hpp` — repository code not under `src/`. -/

/-- `otherObject->find(name)` as used by the generic comparison: the value
of the first member with the given name, if any. -/
def lookupMember (members : List (String × RJValue)) (name : String) : Option RJValue :=
  match members with
  | [] => none
  | (n, v) :: rest => if n == name then some v else lookupMember rest name

/-- Modelled from the spec: `BasicAdapter::equalTo`
(valijson/adapters/basic_adapter.hpp, which is not under src/), per §4.3:
nulls equal nulls; booleans equal iff same value; strings equal iff
identical content; numbers equal iff numerically equal and, only when
`strict`, with matching representational kind (integer vs floating-point —
both sides here are RapidJson values, whose backend reports strict typing);
arrays equal iff same length and pairwise equal in order; objects equal iff
same member count and every member of one has a same-named member in the
other with equal value, order-independent; any other kind combination is
never equal. -/
def equalTo (strict : Bool) : RJValue → RJValue → Bool
  | .rjNull, .rjNull => true
  | .rjFalse, .rjFalse => true
  | .rjTrue, .rjTrue => true
  | .rjString s, .rjString t => s == t
  | .rjIntegral m, .rjIntegral n => m == n
  | .rjIntegral m, .rjDouble d => !strict && ((m : Rat) == d)
  | .rjDouble d, .rjIntegral n => !strict && (d == (n : Rat))
  | .rjDouble d, .rjDouble e => d == e
  | .rjArray xs, .rjArray ys =>
      xs.length == ys.length &&
      (xs.zip ys).attach.all (fun p => equalTo strict p.val.fst p.val.snd)
  | .rjObject ms, .rjObject ns =>
      ms.length == ns.length &&
      ms.attach.all (fun m =>
        match lookupMember ns m.val.fst with
        | some w => equalTo strict m.val.snd w
        | none => false)
  | _, _ => false
termination_by v _ => sizeOf v
decreasing_by
  · have hmem : p.val.fst ∈ xs := (List.of_mem_zip p.property).left
    exact Nat.lt_trans (List.sizeOf_lt_of_mem hmem) (by simp)
  · calc sizeOf m.val.snd < sizeOf m.val := by cases m.val; simp
      _ < sizeOf ms := List.sizeOf_lt_of_mem m.property
      _ < sizeOf (RJValue.rjObject ms) := by simp

/-- No object anywhere in the value has two members with the same name. -/
def noDupKeys : RJValue → Bool
  | .rjArray elems => elems.attach.all (fun e => noDupKeys e.val)
  | .rjObject members =>
      decide (members.map Prod.fst).Nodup &&
      members.attach.all (fun m => noDupKeys m.val.snd)
  | _ => true
decreasing_by
  · exact Nat.lt_trans (List.sizeOf_lt_of_mem e.property) (by simp)
  · calc sizeOf m.val.snd < sizeOf m.val := by cases m.val; simp
      _ < sizeOf members := List.sizeOf_lt_of_mem m.property
      _ < sizeOf (RJValue.rjObject members) := by simp

/-- A concrete well-formed document used to witness the round-trip theorem:
`{"x": [1, 2, 3], "d": 0.5, "s": "hi", "b": true, "z": null}`. -/
def sampleDoc : RJValue :=
  .rjObject [("x", .rjArray [.rjIntegral 1, .rjIntegral 2, .rjIntegral 3]),
             ("d", .rjDouble (1 / 2)), ("s", .rjString "hi"),
             ("b", .rjTrue), ("z", .rjNull)]

/-! ## Helper lemmas -/

/-- Joint behaviour of `lookupMember` and the rapidjson `FindMember` scan:
either both report absence, or both find the same first matching member. -/
theorem findMember_spec (ms : List (String × RJValue)) (s : String) :
    (lookupMember ms s = none ∧ findMemberIdx ms s = none) ∨
    (∃ i w, lookupMember ms s = some w ∧ findMemberIdx ms s = some i ∧
      i < ms.length ∧ ms.getD i ("", .rjNull) = (s, w)) := by
  induction ms with
  | nil => exact Or.inl ⟨rfl, rfl⟩
  | cons head rest ih =>
    obtain ⟨n, v⟩ := head
    cases hb : (n == s) with
    | true =>
      right
      have hns : n = s := beq_iff_eq.mp hb
      subst hns
      exact ⟨0, v, by simp [lookupMember], by simp [findMemberIdx], by simp, by simp [List.getD]⟩
    | false =>
      rcases ih with ⟨h1, h2⟩ | ⟨i, w, h1, h2, h3, h4⟩
      · exact Or.inl ⟨by simp [lookupMember, hb, h1], by simp [findMemberIdx, hb, h2]⟩
      · right
        refine ⟨i + 1, w, by simp [lookupMember, hb, h1],
          by simp [findMemberIdx, hb, h2], by simp; omega, by simpa using h4⟩

/-- In a member list with pairwise-distinct names, `lookupMember` finds each
member at its own value. -/
theorem lookupMember_of_nodup (ms : List (String × RJValue)) (n : String) (v : RJValue)
    (hnd : (ms.map Prod.fst).Nodup) (hmem : (n, v) ∈ ms) :
    lookupMember ms n = some v := by
  induction ms with
  | nil => cases hmem
  | cons head rest ih =>
    obtain ⟨n0, v0⟩ := head
    rcases List.mem_cons.mp hmem with heq | htail
    · obtain ⟨rfl, rfl⟩ := Prod.mk.injEq .. ▸ heq
      simp [lookupMember]
    · have hne : n0 ≠ n := by
        intro hcontra
        subst hcontra
        exact (List.nodup_cons.mp (by simpa using hnd)).left
          (List.mem_map_of_mem Prod.fst htail)
      simp only [lookupMember, beq_iff_eq, if_neg hne]
      exact ih (List.nodup_cons.mp (by simpa using hnd)).right htail

/-- Every pair drawn from `l.zip l` is a repeated element of `l`. -/
theorem mem_zip_self {α : Type} {l : List α} {p : α × α} (h : p ∈ l.zip l) :
    p.fst = p.snd ∧ p.fst ∈ l := by
  induction l with
  | nil => cases h
  | cons a t ih =>
    rcases List.mem_cons.mp (by simpa [List.zip_cons_cons] using h) with heq | htail
    · obtain ⟨h1, h2⟩ := Prod.mk.injEq .. ▸ heq
      exact ⟨h1.symm ▸ h2.symm ▸ rfl, by simp [h1]⟩
    · exact ⟨(ih htail).left, List.mem_cons_of_mem a (ih htail).right⟩

/-- Repeated increment of an array iterator adds to its offset. -/
theorem incrementN_arr (xs : List RJValue) (i n : Nat) :
    RapidJsonArrayValueIterator.incrementN ⟨xs, i⟩ n = ⟨xs, i + n⟩ := by
  induction n generalizing i with
  | zero => rfl
  | succ n ih =>
    have hstep : RapidJsonArrayValueIterator.incrementN ⟨xs, i⟩ (n + 1)
        = RapidJsonArrayValueIterator.incrementN ⟨xs, i + 1⟩ n := rfl
    rw [hstep, ih]
    congr 1
    omega

/-- Repeated increment of an object-member iterator adds to its offset. -/
theorem incrementN_obj (ms : List (String × RJValue)) (i n : Nat) :
    RapidJsonObjectMemberIterator.incrementN ⟨ms, i⟩ n = ⟨ms, i + n⟩ := by
  induction n generalizing i with
  | zero => rfl
  | succ n ih =>
    have hstep : RapidJsonObjectMemberIterator.incrementN ⟨ms, i⟩ (n + 1)
        = RapidJsonObjectMemberIterator.incrementN ⟨ms, i + 1⟩ n := rfl
    rw [hstep, ih]
    congr 1
    omega

/-- Iterating an array iterator to the end yields the suffix of the array
from the iterator's offset. -/
theorem collect_arr (xs : List RJValue) : ∀ (k i : Nat), xs.length - i ≤ k →
    RapidJsonArrayValueIterator.collect ⟨xs, i⟩ = xs.drop i := by
  intro k
  induction k with
  | zero =>
    intro i h
    rw [RapidJsonArrayValueIterator.collect]
    have hge : ¬ (i < xs.length) := by simp at h ⊢; omega
    rw [if_neg (by simpa using hge), List.drop_eq_nil_of_le (by omega)]
  | succ k ih =>
    intro i h
    rw [RapidJsonArrayValueIterator.collect]
    by_cases hlt : i < xs.length
    · rw [if_pos (by simpa using hlt)]
      have hinc : (RapidJsonArrayValueIterator.mk xs i).increment = ⟨xs, i + 1⟩ := rfl
      rw [hinc, ih (i + 1) (by omega)]
      rw [List.drop_eq_getElem_cons hlt]
      congr 1
      simp [RapidJsonArrayValueIterator.dereference, List.getD,
        List.getElem?_eq_getElem hlt]
    · rw [if_neg (by simpa using hlt), List.drop_eq_nil_of_le (by omega)]

/-- Iterating an object-member iterator to the end yields the suffix of the
member list from the iterator's offset. -/
theorem collect_obj (ms : List (String × RJValue)) : ∀ (k i : Nat), ms.length - i ≤ k →
    RapidJsonObjectMemberIterator.collect ⟨ms, i⟩ = ms.drop i := by
  intro k
  induction k with
  | zero =>
    intro i h
    rw [RapidJsonObjectMemberIterator.collect]
    have hge : ¬ (i < ms.length) := by simp at h ⊢; omega
    rw [if_neg (by simpa using hge), List.drop_eq_nil_of_le (by omega)]
  | succ k ih =>
    intro i h
    rw [RapidJsonObjectMemberIterator.collect]
    by_cases hlt : i < ms.length
    · rw [if_pos (by simpa using hlt)]
      have hinc : (RapidJsonObjectMemberIterator.mk ms i).increment = ⟨ms, i + 1⟩ := rfl
      rw [hinc, ih (i + 1) (by omega)]
      rw [List.drop_eq_getElem_cons hlt]
      congr 1
      simp [RapidJsonObjectMemberIterator.dereference, List.getD,
        List.getElem?_eq_getElem hlt]
    · rw [if_neg (by simpa using hlt), List.drop_eq_nil_of_le (by omega)]

/-- Unfolding of `wellFormed` on arrays. -/
theorem wellFormed_arr_iff (xs : List RJValue) :
    RJValue.wellFormed (.rjArray xs) = true ↔ ∀ x ∈ xs, x.wellFormed = true := by
  rw [RJValue.wellFormed]
  simp [List.all_eq_true]

/-- Unfolding of `wellFormed` on objects. -/
theorem wellFormed_obj_iff (ms : List (String × RJValue)) :
    RJValue.wellFormed (.rjObject ms) = true ↔ ∀ m ∈ ms, RJValue.wellFormed m.snd = true := by
  rw [RJValue.wellFormed]
  simp [List.all_eq_true]

/-- Unfolding of `noDupKeys` on arrays. -/
theorem noDupKeys_arr_iff (xs : List RJValue) :
    noDupKeys (.rjArray xs) = true ↔ ∀ x ∈ xs, noDupKeys x = true := by
  rw [noDupKeys]
  simp [List.all_eq_true]

/-- Unfolding of `noDupKeys` on objects. -/
theorem noDupKeys_obj_iff (ms : List (String × RJValue)) :
    noDupKeys (.rjObject ms) = true ↔
      (ms.map Prod.fst).Nodup ∧ ∀ m ∈ ms, noDupKeys m.snd = true := by
  rw [noDupKeys]
  simp [List.all_eq_true]

/-- Fuel-indexed form of `copy_wellFormed_id`. -/
theorem copy_aux (k : Nat) : ∀ v : RJValue, sizeOf v ≤ k → v.wellFormed = true →
    RapidJsonFrozenValue.copy v = some v := by
  induction k with
  | zero =>
    intro v hs _
    cases v <;> simp at hs
  | succ k ih =>
    intro v hs hw
    cases v with
    | rjNull => rw [RapidJsonFrozenValue.copy]
    | rjFalse => rw [RapidJsonFrozenValue.copy]
    | rjTrue => rw [RapidJsonFrozenValue.copy]
    | rjString s => rw [RapidJsonFrozenValue.copy]
    | rjDouble d => rw [RapidJsonFrozenValue.copy]
    | rjUnknown => simp [RJValue.wellFormed] at hw
    | rjIntegral n =>
      have hrange : -(2 ^ 63) ≤ n ∧ n < 2 ^ 64 := by
        simpa [RJValue.wellFormed] using hw
      rw [RapidJsonFrozenValue.copy]
      split_ifs with h1 h2 h3 h4
      · rfl
      · rfl
      · rfl
      · rfl
      · exfalso
        simp [RJValue.IsInt, RJValue.IsUint, RJValue.IsInt64, RJValue.IsUint64]
          at h1 h2 h3 h4
        omega
    | rjArray xs =>
      have hmem : ∀ x ∈ xs, x.wellFormed = true := (wellFormed_arr_iff xs).mp hw
      rw [RapidJsonFrozenValue.copy]
      refine congrArg some (congrArg RJValue.rjArray ?_)
      have hpt : ∀ e ∈ xs.attach,
          (RapidJsonFrozenValue.copy e.val).getD .rjNull = e.val := by
        intro e _
        have hlt : sizeOf e.val < sizeOf (RJValue.rjArray xs) :=
          Nat.lt_trans (List.sizeOf_lt_of_mem e.property) (by simp)
        rw [ih e.val (by omega) (hmem e.val e.property)]
        rfl
      rw [List.map_congr_left hpt]
      simp [List.attach_map_val xs id]
    | rjObject ms =>
      have hmem : ∀ m ∈ ms, RJValue.wellFormed m.snd = true := (wellFormed_obj_iff ms).mp hw
      rw [RapidJsonFrozenValue.copy]
      refine congrArg some (congrArg RJValue.rjObject ?_)
      have hpt : ∀ m ∈ ms.attach,
          (m.val.fst, (RapidJsonFrozenValue.copy m.val.snd).getD .rjNull) = m.val := by
        intro m _
        have hlt : sizeOf m.val.snd < sizeOf (RJValue.rjObject ms) := by
          calc sizeOf m.val.snd < sizeOf m.val := by cases m.val; simp
            _ < sizeOf ms := List.sizeOf_lt_of_mem m.property
            _ < sizeOf (RJValue.rjObject ms) := by simp
        rw [ih m.val.snd (by omega) (hmem m.val m.property)]
        exact Prod.mk.eta
      rw [List.map_congr_left hpt]
      simp [List.attach_map_val ms id]

/-- `RapidJsonFrozenValue::copy` is the identity on every value the actual
rapidjson backend can produce: the copy preserves the value exactly, and in
particular each number's subtype flags. -/
theorem copy_wellFormed_id (v : RJValue) (h : v.wellFormed = true) :
    RapidJsonFrozenValue.copy v = some v :=
  copy_aux (sizeOf v) v (Nat.le_refl _) h

/-- Fuel-indexed form of `equalTo_refl`. -/
theorem equalTo_refl_aux (strict : Bool) (k : Nat) :
    ∀ v : RJValue, sizeOf v ≤ k → v.wellFormed = true → noDupKeys v = true →
      equalTo strict v v = true := by
  induction k with
  | zero =>
    intro v hs _ _
    cases v <;> simp at hs
  | succ k ih =>
    intro v hs hw hnd
    cases v with
    | rjNull => rw [equalTo]
    | rjFalse => rw [equalTo]
    | rjTrue => rw [equalTo]
    | rjString s => rw [equalTo]; exact beq_self_eq_true s
    | rjIntegral n => rw [equalTo]; exact beq_self_eq_true n
    | rjDouble d => rw [equalTo]; exact beq_self_eq_true d
    | rjUnknown => simp [RJValue.wellFormed] at hw
    | rjArray xs =>
      have hwm : ∀ x ∈ xs, x.wellFormed = true := (wellFormed_arr_iff xs).mp hw
      have hmem : ∀ x ∈ xs, noDupKeys x = true := (noDupKeys_arr_iff xs).mp hnd
      rw [equalTo]
      refine Bool.and_eq_true_iff.mpr ⟨beq_self_eq_true _, ?_⟩
      refine List.all_eq_true.mpr ?_
      intro p _
      obtain ⟨hfs, hin⟩ := mem_zip_self p.property
      have hlt : sizeOf p.val.fst < sizeOf (RJValue.rjArray xs) :=
        Nat.lt_trans (List.sizeOf_lt_of_mem hin) (by simp)
      rw [← hfs]
      exact ih p.val.fst (by omega) (hwm p.val.fst hin) (hmem p.val.fst hin)
    | rjObject ms =>
      have hwm : ∀ m ∈ ms, RJValue.wellFormed m.snd = true := (wellFormed_obj_iff ms).mp hw
      obtain ⟨hnodup, hmem⟩ := (noDupKeys_obj_iff ms).mp hnd
      rw [equalTo]
      refine Bool.and_eq_true_iff.mpr ⟨beq_self_eq_true _, ?_⟩
      refine List.all_eq_true.mpr ?_
      intro m _
      have hpair : (m.val.fst, m.val.snd) ∈ ms := by
        rw [Prod.mk.eta]
        exact m.property
      rw [lookupMember_of_nodup ms m.val.fst m.val.snd hnodup hpair]
      have hlt : sizeOf m.val.snd < sizeOf (RJValue.rjObject ms) := by
        calc sizeOf m.val.snd < sizeOf m.val := by cases m.val; simp
          _ < sizeOf ms := List.sizeOf_lt_of_mem m.property
          _ < sizeOf (RJValue.rjObject ms) := by simp
      exact ih m.val.snd (by omega) (hwm m.val m.property) (hmem m.val m.property)

/-- The generic structural comparison is reflexive on well-formed values in
which no object has duplicate member names. -/
theorem equalTo_refl (strict : Bool) (v : RJValue) (hw : v.wellFormed = true)
    (h : noDupKeys v = true) : equalTo strict v v = true :=
  equalTo_refl_aux strict (sizeOf v) v (Nat.le_refl _) hw h

/-! ## The claims -/

/-- C1 counterexample: the round-trip claim quantifies over every value
`freeze()` accepts, but it fails on an object with duplicate member names —
which rapidjson permits.  `freeze` accepts `{"a": 0, "a": 1}` and copies it
verbatim, yet the frozen copy's strict `equalTo` against the original is
false: the generic comparison looks each left-hand member up by name in the
right-hand object, so the second `"a"` member (value 1) is compared against
the first (value 0). -/
theorem claim1_counterexample :
    freeze (.rjObject [("a", .rjIntegral 0), ("a", .rjIntegral 1)])
      = some (.rjObject [("a", .rjIntegral 0), ("a", .rjIntegral 1)]) ∧
    equalTo true (.rjObject [("a", .rjIntegral 0), ("a", .rjIntegral 1)])
      (.rjObject [("a", .rjIntegral 0), ("a", .rjIntegral 1)]) = false := by
  constructor
  · simp [freeze, RapidJsonFrozenValue.copy, RJValue.IsInt]
  · simp [equalTo, lookupMember]

/-- C1 as amended: for every well-formed RapidJson value in which no object
has two members with the same name, freezing succeeds and returns the value
unchanged — in particular every number keeps its native subtype — so the
frozen copy compares strictly equal to the original, and so does its
clone. -/
theorem claim1_freeze_roundtrip (v : RJValue) (hwf : v.wellFormed = true)
    (hnd : noDupKeys v = true) :
    ∃ f, freeze v = some f ∧ equalTo true f v = true ∧
      ∃ g, clone f = some g ∧ equalTo true g v = true :=
  ⟨v, copy_wellFormed_id v hwf, equalTo_refl true v hwf hnd,
   v, copy_wellFormed_id v hwf, equalTo_refl true v hwf hnd⟩

/-- Witness for C1 at the concrete document `sampleDoc`. -/
theorem claim1_witness :
    ∃ f, freeze sampleDoc = some f ∧ equalTo true f sampleDoc = true ∧
      ∃ g, clone f = some g ∧ equalTo true g sampleDoc = true :=
  claim1_freeze_roundtrip sampleDoc
    (by simp [sampleDoc, RJValue.wellFormed])
    (by simp [sampleDoc, noDupKeys])

/-- C4: `find` returns an iterator that dereferences to the matching member
when one exists, returns this object's own `end()` iterator when none does
(the backend's null "not found" sentinel never escapes), on the empty object
returns that object's own `end()`, and the empty object's result never
coincides with a non-empty object's `end()`. -/
theorem claim4_find_spec (ms : List (String × RJValue)) (s : String) :
    (∀ w, lookupMember ms s = some w →
      (RapidJsonObject.find ⟨ms⟩ s).dereference = (s, w)) ∧
    (lookupMember ms s = none →
      RapidJsonObject.find ⟨ms⟩ s = RapidJsonObject.endIter ⟨ms⟩) ∧
    RapidJsonObject.find RapidJsonObject.defaultObject s
      = RapidJsonObject.endIter RapidJsonObject.defaultObject ∧
    (∀ ms2 : List (String × RJValue), ms2 ≠ [] →
      RapidJsonObject.find RapidJsonObject.defaultObject s
        ≠ RapidJsonObject.endIter ⟨ms2⟩) := by
  refine ⟨?_, ?_, ?_, ?_⟩
  · intro w hw
    rcases findMember_spec ms s with ⟨h1, _⟩ | ⟨i, w0, h1, h2, h3, h4⟩
    · rw [hw] at h1
      cases h1
    · have hww : w0 = w := by
        have := h1.symm.trans hw
        injection this
      subst hww
      rw [RapidJsonObject.find]
      simp only [h2]
      simpa [RapidJsonObjectMemberIterator.dereference] using h4
  · intro hnone
    rcases findMember_spec ms s with ⟨_, h2⟩ | ⟨i, w0, h1, _, _, _⟩
    · rw [RapidJsonObject.find]
      simp only [h2]
    · rw [hnone] at h1
      cases h1
  · rfl
  · intro ms2 hne heq
    have hmem := congrArg RapidJsonObjectMemberIterator.members heq
    simp [RapidJsonObject.find, findMemberIdx, RapidJsonObject.defaultObject,
      RapidJsonObject.endIter] at hmem
    exact hne hmem

/-- Witness for C4 at the spec's example object `{"a": 1, "b": 2}`. -/
theorem claim4_witness :
    (RapidJsonObject.find ⟨[("a", .rjIntegral 1), ("b", .rjIntegral 2)]⟩ "a").dereference
      = ("a", .rjIntegral 1) ∧
    RapidJsonObject.find ⟨[("a", .rjIntegral 1), ("b", .rjIntegral 2)]⟩ "c"
      = RapidJsonObject.endIter ⟨[("a", .rjIntegral 1), ("b", .rjIntegral 2)]⟩ ∧
    RapidJsonObject.find RapidJsonObject.defaultObject "a"
      = RapidJsonObject.endIter RapidJsonObject.defaultObject ∧
    RapidJsonObject.find RapidJsonObject.defaultObject "a"
      ≠ RapidJsonObject.endIter ⟨[("a", .rjIntegral 1), ("b", .rjIntegral 2)]⟩ :=
  ⟨(claim4_find_spec [("a", .rjIntegral 1), ("b", .rjIntegral 2)] "a").left
      (.rjIntegral 1) (by simp [lookupMember]),
   (claim4_find_spec [("a", .rjIntegral 1), ("b", .rjIntegral 2)] "c").right.left
      (by simp [lookupMember]),
   (claim4_find_spec [] "a").right.right.left,
   (claim4_find_spec [] "a").right.right.right
      [("a", .rjIntegral 1), ("b", .rjIntegral 2)] (by simp)⟩

/-- C6: for both view kinds, `begin()` advanced `size()` times equals
`end()`, the sequence produced by iterating from `begin()` to `end()` is
exactly the container's element (resp. member) sequence — so its length is
`size()` and any two iterations from `begin()` produce the same
sequence. -/
theorem claim6_iteration_size_consistency (xs : List RJValue)
    (ms : List (String × RJValue)) :
    RapidJsonArrayValueIterator.incrementN (RapidJsonArray.begin ⟨xs⟩)
        (RapidJsonArray.size ⟨xs⟩) = RapidJsonArray.endIter ⟨xs⟩ ∧
    (RapidJsonArray.begin ⟨xs⟩).collect.length = RapidJsonArray.size ⟨xs⟩ ∧
    (RapidJsonArray.begin ⟨xs⟩).collect = xs ∧
    RapidJsonObjectMemberIterator.incrementN (RapidJsonObject.begin ⟨ms⟩)
        (RapidJsonObject.size ⟨ms⟩) = RapidJsonObject.endIter ⟨ms⟩ ∧
    (RapidJsonObject.begin ⟨ms⟩).collect.length = RapidJsonObject.size ⟨ms⟩ ∧
    (RapidJsonObject.begin ⟨ms⟩).collect = ms := by
  have ha := collect_arr xs xs.length 0 (by omega)
  have hb := collect_obj ms ms.length 0 (by omega)
  rw [List.drop_zero] at ha hb
  refine ⟨?_, ?_, ?_, ?_, ?_, ?_⟩
  · rw [show RapidJsonArray.begin ⟨xs⟩ = ⟨xs, 0⟩ from rfl, incrementN_arr]
    simp [RapidJsonArray.endIter, RapidJsonArray.size]
  · rw [show RapidJsonArray.begin ⟨xs⟩ = ⟨xs, 0⟩ from rfl, ha]
    rfl
  · rw [show RapidJsonArray.begin ⟨xs⟩ = ⟨xs, 0⟩ from rfl, ha]
  · rw [show RapidJsonObject.begin ⟨ms⟩ = ⟨ms, 0⟩ from rfl, incrementN_obj]
    simp [RapidJsonObject.endIter, RapidJsonObject.size]
  · rw [show RapidJsonObject.begin ⟨ms⟩ = ⟨ms, 0⟩ from rfl, hb]
    rfl
  · rw [show RapidJsonObject.begin ⟨ms⟩ = ⟨ms, 0⟩ from rfl, hb]

/-- C2: the claim says freezing a value containing a node of an undefined
kind anywhere in the subtree fails with UnsupportedValue.  The code fails
only when that node is at the root: `RapidJsonFrozenValue::copy` discards
the result of its recursive calls, so an undefined node nested in an array
or object is silently replaced by the default-constructed (null)
destination value and the enclosing copy succeeds, contradicting both the
claim and `copy`'s own documented contract (`@returns true if copied
successfully, false otherwise`). -/
theorem claim2_nested_unsupported_silently_nulled :
    RapidJsonFrozenValue.copy .rjUnknown = none ∧
    RapidJsonFrozenValue.copy (.rjArray [.rjUnknown]) = some (.rjArray [.rjNull]) ∧
    RapidJsonFrozenValue.copy (.rjObject [("k", .rjUnknown)])
      = some (.rjObject [("k", .rjNull)]) ∧
    (freeze (.rjArray [.rjUnknown])).isSome = true := by
  refine ⟨?_, ?_, ?_, ?_⟩ <;> simp [RapidJsonFrozenValue.copy, freeze]

/-- C3: `getInteger` returns the exact stored value for every integral
number in `int64_t` range — whichever native subtype (Int, Uint, Int64,
Uint64) the backend stored it with — in particular for
9223372036854775807, and it fails (returns no value) on a double-typed
number, in particular on every fractional one, rather than truncating. -/
theorem claim3_getInteger_exact_and_fails_fractional :
    (∀ n : Int, -(2 ^ 63) ≤ n → n < 2 ^ 63 →
      RapidJsonValue.getInteger (.rjIntegral n) = some n) ∧
    RapidJsonValue.getInteger (.rjIntegral (2 ^ 63 - 1)) = some (2 ^ 63 - 1) ∧
    (∀ d : Rat, d.den ≠ 1 → RapidJsonValue.getInteger (.rjDouble d) = none) := by
  have hmain : ∀ n : Int, -(2 ^ 63) ≤ n → n < 2 ^ 63 →
      RapidJsonValue.getInteger (.rjIntegral n) = some n := by
    intro n h1 h2
    rw [RapidJsonValue.getInteger]
    split_ifs with hi1 hi2 hi3 hi4
    · simp [RJValue.GetIntegral]
    · simp [RJValue.GetIntegral]
    · simp [RJValue.GetIntegral]
    all_goals (exfalso; simp [RJValue.IsInt64] at hi2; omega)
  refine ⟨hmain, hmain _ (by norm_num) (by norm_num), ?_⟩
  intro d _
  simp [RapidJsonValue.getInteger, RJValue.IsInt, RJValue.IsInt64,
    RJValue.IsUint, RJValue.IsUint64]

/-- Witness for C3 at `n = 3` and `d = 1/2`. -/
theorem claim3_witness :
    RapidJsonValue.getInteger (.rjIntegral 3) = some 3 ∧
    RapidJsonValue.getInteger (.rjDouble (1 / 2)) = none :=
  ⟨claim3_getInteger_exact_and_fails_fractional.left 3 (by decide) (by decide),
   claim3_getInteger_exact_and_fails_fractional.right.right (1 / 2) (by norm_num)⟩

/-- C5: building an array view from a non-array value, or an object view
from a non-object value, fails with TypeMismatch; building one from a
conforming value succeeds. -/
theorem claim5_view_construction_type_mismatch (v : RJValue) :
    (v.IsArray = false → RapidJsonArray.ofValue v = .error .typeMismatch) ∧
    (v.IsArray = true → ∃ a, RapidJsonArray.ofValue v = .ok a) ∧
    (v.IsObject = false → RapidJsonObject.ofValue v = .error .typeMismatch) ∧
    (v.IsObject = true → ∃ o, RapidJsonObject.ofValue v = .ok o) := by
  cases v <;>
    simp [RapidJsonArray.ofValue, RapidJsonObject.ofValue, RJValue.IsArray,
      RJValue.IsObject]

/-- Witness for C5: an object is rejected by the array view and accepted by
the object view; an array the other way around. -/
theorem claim5_witness :
    RapidJsonArray.ofValue (.rjObject []) = .error .typeMismatch ∧
    (∃ o, RapidJsonObject.ofValue (.rjObject []) = .ok o) ∧
    RapidJsonObject.ofValue (.rjArray []) = .error .typeMismatch ∧
    (∃ a, RapidJsonArray.ofValue (.rjArray []) = .ok a) :=
  ⟨(claim5_view_construction_type_mismatch (.rjObject [])).left (by simp [RJValue.IsArray]),
   (claim5_view_construction_type_mismatch (.rjObject [])).right.right.right
     (by simp [RJValue.IsObject]),
   (claim5_view_construction_type_mismatch (.rjArray [])).right.right.left
     (by simp [RJValue.IsObject]),
   (claim5_view_construction_type_mismatch (.rjArray [])).right.left
     (by simp [RJValue.IsArray])⟩

/-- C7: the backend declares strict typing; no value is both integer-typed
and double-typed; comparing integer 4 against floating-point 4.0 is false
under strict comparison and true under loose comparison (both
orientations). -/
theorem claim7_strict_typing :
    RapidJsonValue.hasStrictTypes = true ∧
    (∀ v : RJValue, (RapidJsonValue.isInteger v && RapidJsonValue.isDouble v) = false) ∧
    equalTo true (.rjIntegral 4) (.rjDouble 4) = false ∧
    equalTo true (.rjDouble 4) (.rjIntegral 4) = false ∧
    equalTo false (.rjIntegral 4) (.rjDouble 4) = true ∧
    equalTo false (.rjDouble 4) (.rjIntegral 4) = true := by
  refine ⟨rfl, ?_, by simp [equalTo], by simp [equalTo], by simp [equalTo],
    by simp [equalTo]⟩
  intro v
  cases v <;>
    simp [RapidJsonValue.isInteger, RapidJsonValue.isDouble, RJValue.IsInt,
      RJValue.IsInt64, RJValue.IsUint, RJValue.IsUint64, RJValue.IsDouble]

/-- C8: a default-constructed `RapidJsonValue` wraps the empty-object
singleton — it is an object of size 0 on which every scalar getter fails —
and default-constructed array and object views are empty with
`begin() = end()`. -/
theorem claim8_default_constructed :
    RapidJsonValue.isObject RapidJsonValue.defaultValue = true ∧
    RapidJsonValue.getObjectSize RapidJsonValue.defaultValue = some 0 ∧
    RapidJsonValue.getBool RapidJsonValue.defaultValue = none ∧
    RapidJsonValue.getDouble RapidJsonValue.defaultValue = none ∧
    RapidJsonValue.getInteger RapidJsonValue.defaultValue = none ∧
    RapidJsonValue.getString RapidJsonValue.defaultValue = none ∧
    RapidJsonArray.defaultArray.size = 0 ∧
    RapidJsonArray.defaultArray.begin = RapidJsonArray.defaultArray.endIter ∧
    RapidJsonObject.defaultObject.size = 0 ∧
    RapidJsonObject.defaultObject.begin = RapidJsonObject.defaultObject.endIter := by
  refine ⟨rfl, rfl, rfl, rfl, ?_, rfl, rfl, rfl, rfl, rfl⟩
  simp [RapidJsonValue.getInteger, RapidJsonValue.defaultValue,
    RapidJsonValue.emptyObject, RJValue.IsInt, RJValue.IsInt64, RJValue.IsUint,
    RJValue.IsUint64]

/-- C9: each scalar getter leaves its output reference untouched whenever it
returns false; the reference is written only on the success path. -/
theorem claim9_getters_atomic_on_failure (v : RJValue) (b : Bool) (d : Rat)
    (n : Int) (s : String) :
    ((RapidJsonValue.getBoolRef v b).fst = false →
      (RapidJsonValue.getBoolRef v b).snd = b) ∧
    ((RapidJsonValue.getDoubleRef v d).fst = false →
      (RapidJsonValue.getDoubleRef v d).snd = d) ∧
    ((RapidJsonValue.getIntegerRef v n).fst = false →
      (RapidJsonValue.getIntegerRef v n).snd = n) ∧
    ((RapidJsonValue.getStringRef v s).fst = false →
      (RapidJsonValue.getStringRef v s).snd = s) := by
  refine ⟨?_, ?_, ?_, ?_⟩ <;>
    · intro h
      first
        | (rw [RapidJsonValue.getBoolRef] at h ⊢; split_ifs at h ⊢; simp_all)
        | (rw [RapidJsonValue.getDoubleRef] at h ⊢; split_ifs at h ⊢; simp_all)
        | (rw [RapidJsonValue.getIntegerRef] at h ⊢; split_ifs at h ⊢; simp_all)
        | (rw [RapidJsonValue.getStringRef] at h ⊢; split_ifs at h ⊢; simp_all)

/-- Witness for C9 at a null value, on which all four getters fail. -/
theorem claim9_witness :
    (RapidJsonValue.getBoolRef .rjNull true).snd = true ∧
    (RapidJsonValue.getDoubleRef .rjNull 7).snd = 7 ∧
    (RapidJsonValue.getIntegerRef .rjNull 5).snd = 5 ∧
    (RapidJsonValue.getStringRef .rjNull "abc").snd = "abc" :=
  ⟨(claim9_getters_atomic_on_failure .rjNull true 7 5 "abc").left rfl,
   (claim9_getters_atomic_on_failure .rjNull true 7 5 "abc").right.left rfl,
   (claim9_getters_atomic_on_failure .rjNull true 7 5 "abc").right.right.left rfl,
   (claim9_getters_atomic_on_failure .rjNull true 7 5 "abc").right.right.right rfl⟩

/-- C10: at the Value capability layer there is no numeric cross-coercion:
`getDouble` succeeds exactly on double-typed values, `getInteger` exactly on
integer-typed values, the two never both succeed, and `getDouble` fails on
an integer-typed number although that number satisfies `isNumber`. -/
theorem claim10_no_numeric_cross_coercion (v : RJValue) :
    ((RapidJsonValue.getDouble v).isSome = RapidJsonValue.isDouble v) ∧
    ((RapidJsonValue.getInteger v).isSome = RapidJsonValue.isInteger v) ∧
    (((RapidJsonValue.getDouble v).isSome && (RapidJsonValue.getInteger v).isSome)
      = false) ∧
    (RapidJsonValue.isInteger v = true →
      RapidJsonValue.isNumber v = true ∧ RapidJsonValue.getDouble v = none) := by
  refine ⟨?_, ?_, ?_, ?_⟩
  · rw [RapidJsonValue.getDouble, RapidJsonValue.isDouble]
    split_ifs with h <;> simp [h]
  · rw [RapidJsonValue.getInteger, RapidJsonValue.isInteger]
    split_ifs with h1 h2 h3 h4 <;> simp [*]
  · cases v <;>
      simp [RapidJsonValue.getDouble, RapidJsonValue.getInteger, RJValue.IsDouble,
        RJValue.IsInt, RJValue.IsInt64, RJValue.IsUint, RJValue.IsUint64]
  · cases v <;>
      simp [RapidJsonValue.isInteger, RapidJsonValue.isNumber,
        RapidJsonValue.getDouble, RJValue.IsDouble, RJValue.IsNumber,
        RJValue.IsInt, RJValue.IsInt64, RJValue.IsUint, RJValue.IsUint64]

/-- Witness for C10 at the integer-typed number 4. -/
theorem claim10_witness :
    RapidJsonValue.isNumber (.rjIntegral 4) = true ∧
    RapidJsonValue.getDouble (.rjIntegral 4) = none :=
  (claim10_no_numeric_cross_coercion (.rjIntegral 4)).right.right.right
    (by simp [RapidJsonValue.isInteger, RJValue.IsInt])

end Valijson
